import Mathlib

/-!
A shallow embedding of the streaming merge-and-rank engine of the
`vcf_to_bed` tool and of the cross-file dedup utility `merge_bed`
(Ensembl variation pipelines), with proofs about the embedded code.

Modelling conventions, used throughout:
* Rust `u64` / `u8` values are modelled as `Nat`; the `u8` bound shows
  up only where the source parses a rank (`parse::<u8>` accepts values
  below 256).
* `HashSet<String>` is modelled as a duplicate-free `List String` in
  insertion order.  Hash-set iteration order is arbitrary in the
  source; the list order is a deterministic stand-in for it.
* Writing a line to the output file is modelled by returning the
  flushed value instead of performing IO.
* Rust `str::split` with a one-character pattern is modelled by
  `splitChar` below, and the `join` of a vector of strings by
  `joinChar`.
-/

/-- Split a character list on a separator character, keeping empty
pieces; mirrors Rust `str::split` with a one-character pattern
(`"".split(c)` yields one empty piece, a trailing separator yields a
trailing empty piece).  The result is always non-empty. -/
def splitChar (c : Char) : List Char → List (List Char)
  | [] => [[]]
  | d :: ds =>
    if d = c then [] :: splitChar c ds
    else
      match splitChar c ds with
      | [] => [[d]]
      | e :: es => (d :: e) :: es

/-- Join character lists with a separator character; mirrors Rust
`Vec::join` on strings. -/
def joinChar (c : Char) : List (List Char) → List Char
  | [] => []
  | [x] => x
  | x :: y :: xs => x ++ c :: joinChar c (y :: xs)

/-- String wrapper around `splitChar`. -/
def splitOnStr (c : Char) (s : String) : List String :=
  (splitChar c s.data).map String.mk

/-- String wrapper around `joinChar`. -/
def joinStr (c : Char) (ps : List String) : String :=
  String.mk (joinChar c (ps.map String.data))

/-- A string that contains no space character. -/
def spaceFree (s : String) : Prop := ' ' ∉ s.data

instance (s : String) : Decidable (spaceFree s) := by
  unfold spaceFree; infer_instance

/-- Rust `str::parse::<u8>()`, as `some` on success: an optional
leading `+`, then one or more decimal digits, value below 256
(Rust reports an overflow error for larger values, modelled as
`none` as well). -/
def parseU8 (s : String) : Option Nat :=
  let ds := match s.data with
            | '+' :: r => r
            | r => r
  if ds ≠ [] ∧ ds.all (fun ch => 48 ≤ ch.toNat ∧ ch.toNat ≤ 57) then
    let v := ds.foldl (fun n ch => n * 10 + (ch.toNat - 48)) 0
    if v ≤ 255 then some v else none
  else none

/-- The severity-table lookup of `vcf_to_bed`:
`severity.get(csq).unwrap_or(&String::from("0"))` — an absent term
defaults to the string `"0"`.  The table (a JSON `HashMap`) is
modelled as an association list. -/
def lookupSeverity (sev : List (String × String)) (csq : String) : String :=
  (sev.lookup csq).getD "0"

/-- The severity rank of one consequence term:
`(*severity.get(csq).unwrap_or(&String::from("0"))).parse::<u8>().unwrap()`.
The `unwrap` aborts the whole run when the table value is not a valid
`u8`; the `getD 0` below is never exercised on such tables (theorems
that depend on a parsed value carry an `isSome` hypothesis), and the
default string `"0"` always parses. -/
def severityOf (sev : List (String × String)) (csq : String) : Nat :=
  (parseU8 (lookupSeverity sev csq)).getD 0

/-- The 45-entry `VARIANTGROUP` constant of `vcf_to_bed`, verbatim. -/
def VARIANTGROUP : List (String × Nat) := [
  ("frameshift_variant", 1),
  ("inframe_deletion", 1),
  ("inframe_insertion", 1),
  ("missense_variant", 1),
  ("protein_altering_variant", 1),
  ("start_lost", 1),
  ("stop_gained", 1),
  ("stop_lost", 1),
  ("splice_acceptor_variant", 2),
  ("splice_donor_5th_base_variant", 2),
  ("splice_donor_region_variant", 2),
  ("splice_donor_variant", 2),
  ("splice_polypyrimidine_tract_variant", 2),
  ("splice_region_variant", 2),
  ("3_prime_UTR_variant", 3),
  ("5_prime_UTR_variant", 3),
  ("coding_sequence_variant", 3),
  ("incomplete_terminal_codon_variant", 3),
  ("intron_variant", 3),
  ("mature_miRNA_variant", 3),
  ("NMD_transcript_variant", 3),
  ("non_coding_transcript_exon_variant", 3),
  ("non_coding_transcript_variant", 3),
  ("start_retained_variant", 3),
  ("stop_retained_variant", 3),
  ("synonymous_variant", 3),
  ("feature_elongation", 3),
  ("feature_truncation", 3),
  ("transcript_ablation", 3),
  ("transcript_amplification", 3),
  ("transcript_fusion", 3),
  ("transcript_translocation", 3),
  ("regulatory_region_variant", 4),
  ("TF_binding_site_variant", 4),
  ("regulatory_region_ablation", 4),
  ("regulatory_region_amplification", 4),
  ("regulatory_region_fusion", 4),
  ("regulatory_region_translocation", 4),
  ("TFBS_ablation", 4),
  ("TFBS_amplification", 4),
  ("TFBS_fusion", 4),
  ("TFBS_translocation", 4),
  ("upstream_gene_variant", 5),
  ("downstream_gene_variant", 5),
  ("intergenic_variant", 5)]

/-- `variant_groups.get(csq).unwrap_or(&0)`: the group of a
consequence term, defaulting to 0 for unknown terms.  The `HashMap`
built from `VARIANTGROUP` (no duplicate keys) is modelled by list
lookup. -/
def groupOf (csq : String) : Nat := (VARIANTGROUP.lookup csq).getD 0

/-- The `Line` struct of `vcf_to_bed` (both the accumulator state and
the candidate intervals). -/
structure Line where
  chromosome : String
  start : Nat
  end_ : Nat
  id : String
  variety : String
  reference : String
  alts : List String
  group : Nat
  severity : String
  severity_rank : Nat
deriving DecidableEq

/-- The dummy initial accumulator value of `main` ("this line is
guranteed to not get printed as alt.len == 0"). -/
def Line.sentinel : Line :=
  { chromosome := "", start := 1, end_ := 0, id := "", variety := "",
    reference := "", alts := [], group := 0, severity := "",
    severity_rank := 255 }

/-- `Line::compatible`. -/
def Line.compatible (self other : Line) : Bool :=
  self.chromosome == other.chromosome &&
  self.start == other.start &&
  self.variety == other.variety &&
  self.reference == other.reference

/-- `Line::redundant`. -/
def Line.redundant (self other : Line) : Bool :=
  self.id == other.id &&
  self.variety != other.variety

/-- `HashSet::extend`: add each element of `add` that is not already
present (list model of set union, insertion order). -/
def extendAlts (cur add : List String) : List String :=
  add.foldl (fun l a => if a ∈ l then l else l ++ [a]) cur

/-- The compatible branch of `Line::merge`: union the alleles; if the
newcomer's rank is strictly better, adopt its end/variety when it
extends the interval, and unconditionally adopt its group, consequence
and rank. -/
def Line.mergeCompatible (self more : Line) : Line :=
  let alts' := extendAlts self.alts more.alts
  if more.severity_rank < self.severity_rank then
    if self.end_ < more.end_ then
      { self with
        alts := alts',
        end_ := more.end_,
        variety := more.variety,
        group := more.group,
        severity := more.severity,
        severity_rank := more.severity_rank }
    else
      { self with
        alts := alts',
        group := more.group,
        severity := more.severity,
        severity_rank := more.severity_rank }
  else
    { self with alts := alts' }

/-- `Line::merge(&mut self, more, out)`, IO-free: the first component
is the line flushed to `out` (if any), the second the new value of
`self`. -/
def Line.merge (self : Line) (more : Option Line) : Option Line × Line :=
  match more with
  | some m =>
    if self.compatible m then (none, self.mergeCompatible m)
    else if self.redundant m then (none, self)
    else ((if 0 < self.alts.length then some self else none), m)
  | none => ((if 0 < self.alts.length then some self else none), self)

/-- Fold a list of candidates into the accumulator with `Line::merge`,
collecting the flushed lines in order. -/
def Line.run : Line → List Line → List Line × Line
  | cur, [] => ([], cur)
  | cur, c :: cs =>
    let s := Line.merge cur (some c)
    let r := Line.run s.2 cs
    (s.1.toList ++ r.1, r.2)

/-- Fold all candidates, then the end-of-stream
`lines.merge(None, &mut out)`; returns every flushed line in order. -/
def Line.runFinish (cur : Line) (cs : List Line) : List Line :=
  let r := Line.run cur cs
  r.1 ++ (Line.merge r.2 none).1.toList

/-- The earliest candidate of minimum severity rank among `c :: rest`
(strictly-better-wins left fold, so ties keep the earlier one). -/
def mostSevereOf (c : Line) (rest : List Line) : Line :=
  rest.foldl (fun b d => if d.severity_rank < b.severity_rank then d else b) c

/-- The nine output fields of the `write!` in `Line::merge`, in order:
chromosome, start, end, id, variety, reference, alts joined with "/",
group, severity. -/
def Line.emitFields (l : Line) : List String :=
  [l.chromosome, Nat.repr l.start, Nat.repr l.end_, l.id, l.variety,
   l.reference, joinStr '/' l.alts, Nat.repr l.group, l.severity]

/-- The emitted line (without the trailing newline): the nine fields
joined by single spaces, as in
`write!(out, "{} {} {} {} {} {} {} {} {}\n", ...)`. -/
def Line.emit (l : Line) : String := joinStr ' ' l.emitFields

/-- An emitted line read back as its nine textual fields (the numeric
fields kept as text, the alternate-allele field split on "/"). -/
structure ParsedLine where
  chromosome : String
  start : String
  end_ : String
  id : String
  variety : String
  reference : String
  alts : List String
  group : String
  severity : String
deriving DecidableEq

/-- Parse one emitted line: split on spaces into the nine
whitespace-separated fields, and split the alternate-allele field
on "/". -/
def parseLine (s : String) : ParsedLine :=
  let p := splitOnStr ' ' s
  { chromosome := p.getD 0 "", start := p.getD 1 "", end_ := p.getD 2 "",
    id := p.getD 3 "", variety := p.getD 4 "", reference := p.getD 5 "",
    alts := splitOnStr '/' (p.getD 6 ""), group := p.getD 7 "",
    severity := p.getD 8 "" }

/-- Re-emit a parsed line: the same nine fields joined by single
spaces, the alternate alleles re-joined with "/". -/
def ParsedLine.emit (q : ParsedLine) : String :=
  joinStr ' ' [q.chromosome, q.start, q.end_, q.id, q.variety,
               q.reference, joinStr '/' q.alts, q.group, q.severity]

/-- One decoded VCF record, with exactly the fields `main` reads:
`record.chromosome`, `record.position`, `record.reference`,
`record.alternative`, `record.id`, and the raw `CSQ` info strings
(`none` when the `CSQ` key is absent). -/
structure Record where
  chromosome : String
  position : Nat
  reference : String
  alternative : List String
  id : List String
  csqInfo : Option (List String)

/-- Field 1 of a per-transcript annotation:
`s.split("|").nth(1).unwrap_or("")`. -/
def csqField1 (s : String) : String := (splitOnStr '|' s).getD 1 ""

/-- Field 21 of a per-transcript annotation:
`s.split("|").nth(21).unwrap_or("")`. -/
def csqField21 (s : String) : String := (splitOnStr '|' s).getD 21 ""

/-- The consequence-term strings of a record
(`record.info(b"CSQ")`, field 1 of each entry, `unwrap_or(vec![])`). -/
def csqTerms (r : Record) : List String :=
  (r.csqInfo.map (fun cs => cs.map csqField1)).getD []

/-- The variant-class strings of a record
(`record.info(b"CSQ")`, field 21 of each entry, `unwrap_or(vec![])`). -/
def csqClasses (r : Record) : List String :=
  (r.csqInfo.map (fun cs => cs.map csqField21)).getD []

/-- The classifier loop state: `variant_group`, `most_severe_csq`,
`msc_rank`, `variety`. -/
structure Classified where
  variant_group : Nat
  most_severe_csq : String
  msc_rank : Nat
  variety : String
deriving DecidableEq

/-- One step of the classifier's inner loop (`for csq in csq.split("&")`):
strictly-lower severity wins and carries its transcript's variant
class along. -/
def classifyTerm (sev : List (String × String)) (st : Classified)
    (t : String) (cls : String) : Classified :=
  let s := severityOf sev t
  if s < st.msc_rank then
    { variant_group := groupOf t, most_severe_csq := t,
      msc_rank := s, variety := cls }
  else st

/-- The classifier loop of `main` (lines 192-211): fold the zipped
(consequence string, class string) pairs, splitting each consequence
string on "&", starting from group 0, empty consequence, rank 255,
empty variety. -/
def classifyCsq (sev : List (String × String))
    (pairs : List (String × String)) : Classified :=
  pairs.foldl
    (fun st p => (splitOnStr '&' p.1).foldl (fun st t => classifyTerm sev st t p.2) st)
    { variant_group := 0, most_severe_csq := "", msc_rank := 255, variety := "" }

/-- The end coordinate (lines 217-223): `position + ref_len - 1` in
general, overridden to `position` for variety "SNV" and to
`position + 1` for variety "insertion". -/
def computeEnd (pos refLen : Nat) (variety : String) : Nat :=
  if variety = "SNV" then pos
  else if variety = "insertion" then pos + 1
  else pos + refLen - 1

/-- Does any identifier contain the multi-ID separator ";"
(`id.contains(";")`)? -/
def hasMultiId (r : Record) : Bool :=
  r.id.any (fun i => i.data.contains ';')

/-- The per-record body of `main`'s while loop, as the list of
candidate `Line`s passed to `Line::merge` (in iteration order):
skip when the reference is longer than 31 bytes, when some id holds
";", or when the CSQ list is empty; otherwise build one candidate per
(id, alternate allele) pair, sharing one classifier result.
`reference.len()` is a Rust byte length, hence `utf8ByteSize`; the
`HashSet` of alternate alleles is the insertion-order dedup of
`record.alternative`. -/
def processRecord (sev : List (String × String)) (r : Record) : List Line :=
  let reference := r.reference
  let refLen := reference.utf8ByteSize
  if 31 < refLen then []
  else if hasMultiId r then []
  else
    let alts := extendAlts [] r.alternative
    let csq := csqTerms r
    if csq.isEmpty then []
    else
      let cls := csqClasses r
      let st := classifyCsq sev (csq.zip cls)
      r.id.flatMap (fun i =>
        alts.map (fun alt =>
          { chromosome := r.chromosome, start := r.position,
            end_ := computeEnd r.position refLen st.variety,
            id := i, variety := st.variety, reference := reference,
            alts := [alt], group := st.variant_group,
            severity := st.most_severe_csq,
            severity_rank := st.msc_rank }))

/-- The dedup key of `merge_bed`: `parts[3]`, the 4th
space-separated field. -/
def bedKey (line : String) : String := (splitOnStr ' ' line).getD 3 ""

/-- One line of `merge_bed`'s inner loop: split on spaces; if the 4th
field was not seen yet, write fields 0..8 re-joined with spaces and
record the key.  State: (seen keys, output lines). -/
def mergeBedStep (acc : List String × List String) (line : String) :
    List String × List String :=
  let parts := splitOnStr ' ' line
  let key := bedKey line
  if key ∈ acc.1 then acc
  else (acc.1 ++ [key],
        acc.2 ++ [joinStr ' '
          [parts.getD 0 "", parts.getD 1 "", parts.getD 2 "",
           parts.getD 3 "", parts.getD 4 "", parts.getD 5 "",
           parts.getD 6 "", parts.getD 7 "", parts.getD 8 ""]])

/-- One input file of `merge_bed`: fold its lines in order. -/
def mergeBedFile (acc : List String × List String) (lines : List String) :
    List String × List String :=
  lines.foldl mergeBedStep acc

/-- The whole `merge_bed` run over the input files in command-line
order, starting from no seen ids and empty output. -/
def mergeBed (files : List (List String)) : List String :=
  (files.foldl mergeBedFile ([], [])).2

/-- Modelled from the spec (section 6): the cross-file union keeps,
for each distinct identifier (4th field), only the first occurrence
across all inputs in file-then-line order, preserving the line
verbatim. -/
def firstOccurrences : List String → List String
  | [] => []
  | l :: rest =>
    l :: firstOccurrences (rest.filter (fun x => bedKey x ≠ bedKey l))
termination_by ls => ls.length
decreasing_by
  exact Nat.lt_succ_of_le (List.length_filter_le _ _)

/-! ## Basic lemmas about `Line.compatible`, `Line.redundant`,
`extendAlts` and `Line.mergeCompatible` -/

theorem compatible_iff (a b : Line) :
    a.compatible b = true ↔
      a.chromosome = b.chromosome ∧ a.start = b.start ∧
      a.variety = b.variety ∧ a.reference = b.reference := by
  simp [Line.compatible, and_assoc]

theorem redundant_iff (a b : Line) :
    a.redundant b = true ↔ a.id = b.id ∧ a.variety ≠ b.variety := by
  simp [Line.redundant]

theorem mem_insertAlt (l : List String) (x a : String) :
    a ∈ (if x ∈ l then l else l ++ [x]) ↔ a ∈ l ∨ a = x := by
  split
  · next h =>
    constructor
    · exact fun ha => Or.inl ha
    · rintro (ha | rfl)
      · exact ha
      · exact h
  · simp

theorem mem_extendAlts (add : List String) :
    ∀ cur a, a ∈ extendAlts cur add ↔ a ∈ cur ∨ a ∈ add := by
  induction add with
  | nil => intro cur a; simp [extendAlts]
  | cons x xs ih =>
    intro cur a
    show a ∈ extendAlts (if x ∈ cur then cur else cur ++ [x]) xs ↔ _
    rw [ih]
    rw [mem_insertAlt]
    constructor
    · rintro ((h | rfl) | h)
      · exact Or.inl h
      · exact Or.inr (List.mem_cons_self _ _)
      · exact Or.inr (List.mem_cons_of_mem _ h)
    · rintro (h | h)
      · exact Or.inl (Or.inl h)
      · rcases List.mem_cons.mp h with rfl | h
        · exact Or.inl (Or.inr rfl)
        · exact Or.inr h

theorem mergeCompatible_frame (cur m : Line) :
    (cur.mergeCompatible m).chromosome = cur.chromosome ∧
    (cur.mergeCompatible m).start = cur.start ∧
    (cur.mergeCompatible m).reference = cur.reference ∧
    (cur.mergeCompatible m).id = cur.id := by
  unfold Line.mergeCompatible
  split
  · split <;> exact ⟨rfl, rfl, rfl, rfl⟩
  · exact ⟨rfl, rfl, rfl, rfl⟩

theorem mergeCompatible_alts (cur m : Line) :
    (cur.mergeCompatible m).alts = extendAlts cur.alts m.alts := by
  unfold Line.mergeCompatible
  split
  · split <;> rfl
  · rfl

theorem mergeCompatible_variety (cur m : Line) (h : m.variety = cur.variety) :
    (cur.mergeCompatible m).variety = cur.variety := by
  unfold Line.mergeCompatible
  split
  · split
    · exact h
    · rfl
  · rfl

theorem mergeCompatible_rank (cur m : Line) :
    (cur.mergeCompatible m).severity_rank
      = (if m.severity_rank < cur.severity_rank
          then m.severity_rank else cur.severity_rank) ∧
    (cur.mergeCompatible m).severity
      = (if m.severity_rank < cur.severity_rank
          then m.severity else cur.severity) ∧
    (cur.mergeCompatible m).group
      = (if m.severity_rank < cur.severity_rank
          then m.group else cur.group) := by
  unfold Line.mergeCompatible
  split
  · next h => split <;> simp [h]
  · next h => simp [h]

/-- C4: an interval with an empty alternate-allele set (the sentinel)
is never emitted: any flushed line has a non-empty allele set, and the
end-of-stream flush (`merge` with no candidate) emits the current
interval exactly when its allele set is non-empty. -/
theorem c4_sentinel_never_emitted (cur : Line) (more : Option Line) :
    ((Line.merge cur more).1 = none ∨
      ∃ l, (Line.merge cur more).1 = some l ∧ 0 < l.alts.length) ∧
    (Line.merge cur none).1
      = (if 0 < cur.alts.length then some cur else none) := by
  refine ⟨?_, rfl⟩
  cases more with
  | none =>
    by_cases h : 0 < cur.alts.length
    · exact Or.inr ⟨cur, by simp [Line.merge, h], h⟩
    · exact Or.inl (by simp [Line.merge, h])
  | some m =>
    by_cases hc : cur.compatible m = true
    · exact Or.inl (by simp [Line.merge, hc])
    · by_cases hr : cur.redundant m = true
      · exact Or.inl (by simp [Line.merge, hc, hr])
      · by_cases h : 0 < cur.alts.length
        · exact Or.inr ⟨cur, by simp [Line.merge, hc, hr, h], h⟩
        · exact Or.inl (by simp [Line.merge, hc, hr, h])

/-- C5: a candidate with the current interval's identifier but a
different variety (and hence not compatible with it) is discarded
silently: nothing is flushed and the accumulator is unchanged. -/
theorem c5_redundant_discarded (cur c : Line) (hid : cur.id = c.id)
    (hv : cur.variety ≠ c.variety) :
    Line.merge cur (some c) = (none, cur) := by
  have hc : ¬ cur.compatible c = true := fun h =>
    hv ((compatible_iff cur c).mp h).2.2.1
  have hr : cur.redundant c = true := (redundant_iff cur c).mpr ⟨hid, hv⟩
  simp [Line.merge, hc, hr]

/-- C5 witness: a concrete redundant candidate is dropped without any
output or change of state. -/
theorem c5_redundant_discarded_witness :
    Line.merge
      { chromosome := "1", start := 100, end_ := 100, id := "rs1",
        variety := "SNV", reference := "A", alts := ["G"], group := 1,
        severity := "missense_variant", severity_rank := 5 }
      (some { chromosome := "1", start := 100, end_ := 102, id := "rs1",
              variety := "deletion", reference := "AGG", alts := ["A"],
              group := 3, severity := "intron_variant", severity_rank := 7 })
    = (none,
       { chromosome := "1", start := 100, end_ := 100, id := "rs1",
         variety := "SNV", reference := "A", alts := ["G"], group := 1,
         severity := "missense_variant", severity_rank := 5 }) :=
  c5_redundant_discarded _ _ (by decide) (by decide)

/-- C9: merging a compatible candidate flushes nothing and leaves the
accumulator's chromosome, start, reference, variety and identifier
unchanged (the candidate's identifier is discarded). -/
theorem c9_compatible_merge_frame (cur c : Line)
    (h : cur.compatible c = true) :
    (Line.merge cur (some c)).1 = none ∧
    (Line.merge cur (some c)).2.chromosome = cur.chromosome ∧
    (Line.merge cur (some c)).2.start = cur.start ∧
    (Line.merge cur (some c)).2.reference = cur.reference ∧
    (Line.merge cur (some c)).2.variety = cur.variety ∧
    (Line.merge cur (some c)).2.id = cur.id := by
  have hv : c.variety = cur.variety := (((compatible_iff cur c).mp h).2.2.1).symm
  have hm : Line.merge cur (some c) = (none, cur.mergeCompatible c) := by
    simp [Line.merge, h]
  rw [hm]
  obtain ⟨h1, h2, h3, h4⟩ := mergeCompatible_frame cur c
  exact ⟨rfl, h1, h2, h3, mergeCompatible_variety cur c hv, h4⟩

/-- C9 witness: a concrete compatible merge keeps the frame fields and
the first candidate's identifier. -/
theorem c9_compatible_merge_frame_witness :
    (Line.merge
        { chromosome := "1", start := 100, end_ := 100, id := "rs1",
          variety := "SNV", reference := "A", alts := ["G"], group := 1,
          severity := "missense_variant", severity_rank := 5 }
        (some { chromosome := "1", start := 100, end_ := 100, id := "rs9",
                variety := "SNV", reference := "A", alts := ["T"],
                group := 2, severity := "stop_gained",
                severity_rank := 3 })).1 = none ∧
    (Line.merge
        { chromosome := "1", start := 100, end_ := 100, id := "rs1",
          variety := "SNV", reference := "A", alts := ["G"], group := 1,
          severity := "missense_variant", severity_rank := 5 }
        (some { chromosome := "1", start := 100, end_ := 100, id := "rs9",
                variety := "SNV", reference := "A", alts := ["T"],
                group := 2, severity := "stop_gained",
                severity_rank := 3 })).2.id = "rs1" := by
  refine ⟨(c9_compatible_merge_frame _ _ (by decide)).1, ?_⟩
  have h := (c9_compatible_merge_frame
    { chromosome := "1", start := 100, end_ := 100, id := "rs1",
      variety := "SNV", reference := "A", alts := ["G"], group := 1,
      severity := "missense_variant", severity_rank := 5 }
    { chromosome := "1", start := 100, end_ := 100, id := "rs9",
      variety := "SNV", reference := "A", alts := ["T"], group := 2,
      severity := "stop_gained", severity_rank := 3 } (by decide)).2.2.2.2.2
  exact h

/-! ## Lemmas about the classifier and the per-record normalizer -/

theorem parseU8_le (s : String) (n : Nat) (h : parseU8 s = some n) :
    n ≤ 255 := by
  simp only [parseU8] at h
  split at h
  · split at h
    · next hle => exact (Option.some_inj.mp h) ▸ hle
    · exact absurd h (by simp)
  · exact absurd h (by simp)

theorem severityOf_le (sev : List (String × String)) (t : String)
    (h : (parseU8 (lookupSeverity sev t)).isSome) :
    severityOf sev t ≤ 255 := by
  obtain ⟨n, hn⟩ := Option.isSome_iff_exists.mp h
  unfold severityOf
  rw [hn]
  exact parseU8_le _ n hn

theorem classifyFold_absorb (sev : List (String × String)) (T : Classified)
    (hT : ¬ severityOf sev "" < T.msc_rank) :
    ∀ qs : List (String × String), (∀ q ∈ qs, q = ("", "")) →
      qs.foldl (fun st p =>
        (splitOnStr '&' p.1).foldl (fun st t => classifyTerm sev st t p.2) st) T
        = T := by
  intro qs
  induction qs with
  | nil => intro _; rfl
  | cons q qs ih =>
    intro hq
    obtain rfl := hq q (List.mem_cons_self _ _)
    rw [List.foldl_cons]
    have hsp : splitOnStr '&' "" = [""] := rfl
    rw [hsp, List.foldl_cons, List.foldl_nil]
    have hstep : classifyTerm sev T "" "" = T := by
      unfold classifyTerm
      exact if_neg hT
    rw [hstep]
    exact ih (fun p hp => hq p (List.mem_cons_of_mem _ hp))

theorem classifyCsq_all_empty (sev : List (String × String))
    (pairs : List (String × String)) (hp : ∀ p ∈ pairs, p = ("", ""))
    (hne : pairs ≠ []) (hle : severityOf sev "" ≤ 255) :
    classifyCsq sev pairs =
      { variant_group := 0, most_severe_csq := "",
        msc_rank := severityOf sev "", variety := "" } := by
  obtain ⟨p, ps, rfl⟩ : ∃ p ps, pairs = p :: ps := by
    cases pairs with
    | nil => exact absurd rfl hne
    | cons p ps => exact ⟨p, ps, rfl⟩
  obtain rfl := hp p (List.mem_cons_self _ _)
  unfold classifyCsq
  rw [List.foldl_cons]
  have hsp : splitOnStr '&' "" = [""] := rfl
  rw [hsp, List.foldl_cons, List.foldl_nil]
  have hg : groupOf "" = 0 := by decide
  have hfirst : classifyTerm sev
      { variant_group := 0, most_severe_csq := "", msc_rank := 255,
        variety := "" } "" ""
      = { variant_group := 0, most_severe_csq := "",
          msc_rank := severityOf sev "", variety := "" } := by
    unfold classifyTerm
    by_cases h : severityOf sev "" < 255
    · simp [h, hg]
    · have h255 : severityOf sev "" = 255 := le_antisymm hle (not_lt.mp h)
      simp [h, h255]
  rw [hfirst]
  exact classifyFold_absorb sev _ (by simp)
    ps (fun q hq => hp q (List.mem_cons_of_mem _ hq))

theorem mem_processRecord (sev : List (String × String)) (r : Record)
    (c : Line) (hc : c ∈ processRecord sev r) :
    ∃ i alt, i ∈ r.id ∧ alt ∈ extendAlts [] r.alternative ∧
      c = { chromosome := r.chromosome, start := r.position,
            end_ := computeEnd r.position r.reference.utf8ByteSize
              (classifyCsq sev ((csqTerms r).zip (csqClasses r))).variety,
            id := i,
            variety := (classifyCsq sev
              ((csqTerms r).zip (csqClasses r))).variety,
            reference := r.reference, alts := [alt],
            group := (classifyCsq sev
              ((csqTerms r).zip (csqClasses r))).variant_group,
            severity := (classifyCsq sev
              ((csqTerms r).zip (csqClasses r))).most_severe_csq,
            severity_rank := (classifyCsq sev
              ((csqTerms r).zip (csqClasses r))).msc_rank } := by
  simp only [processRecord] at hc
  split at hc
  · exact absurd hc (List.not_mem_nil c)
  · split at hc
    · exact absurd hc (List.not_mem_nil c)
    · split at hc
      · exact absurd hc (List.not_mem_nil c)
      · obtain ⟨i, hi, hc⟩ := List.mem_flatMap.mp hc
        obtain ⟨alt, halt, rfl⟩ := List.mem_map.mp hc
        exact ⟨i, alt, hi, halt, rfl⟩

theorem processRecord_ne_nil (sev : List (String × String)) (r : Record)
    (href : ¬ 31 < r.reference.utf8ByteSize) (hm : hasMultiId r = false)
    (hcsq : (csqTerms r).isEmpty = false) (hid : r.id ≠ [])
    (halt : r.alternative ≠ []) :
    processRecord sev r ≠ [] := by
  simp only [processRecord]
  rw [if_neg href, if_neg (by simp [hm]), if_neg (by simp [hcsq])]
  intro hemp
  obtain ⟨i, is, hids⟩ := List.exists_cons_of_ne_nil hid
  obtain ⟨a, as, has⟩ := List.exists_cons_of_ne_nil halt
  have hmem : a ∈ extendAlts [] r.alternative :=
    (mem_extendAlts _ _ _).mpr (Or.inr (by rw [has]; exact List.mem_cons_self _ _))
  have hi : i ∈ r.id := by rw [hids]; exact List.mem_cons_self _ _
  have : (⟨r.chromosome, r.position,
      computeEnd r.position r.reference.utf8ByteSize
        (classifyCsq sev ((csqTerms r).zip (csqClasses r))).variety,
      i, (classifyCsq sev ((csqTerms r).zip (csqClasses r))).variety,
      r.reference, [a],
      (classifyCsq sev ((csqTerms r).zip (csqClasses r))).variant_group,
      (classifyCsq sev ((csqTerms r).zip (csqClasses r))).most_severe_csq,
      (classifyCsq sev ((csqTerms r).zip (csqClasses r))).msc_rank⟩ : Line)
      ∈ ([] : List Line) := by
    rw [← hemp]
    exact List.mem_flatMap.mpr ⟨i, hi, List.mem_map.mpr ⟨a, hmem, rfl⟩⟩
  exact absurd this (List.not_mem_nil _)

/-- C2 counterexample: with the severity table mapping only
"missense_variant" to rank 5, the absent term "strange_term" gets
rank 0 — strictly more severe than the present term — and wins the
most-severe-consequence selection, contradicting the claim that an
unknown term gets the least-severe rank class and never wins. -/
theorem c2_counterexample :
    ([("missense_variant", "5")] : List (String × String)).lookup
        "strange_term" = none ∧
    severityOf [("missense_variant", "5")] "strange_term"
      < severityOf [("missense_variant", "5")] "missense_variant" ∧
    (classifyCsq [("missense_variant", "5")]
        [("strange_term&missense_variant", "SNV")]).most_severe_csq
      = "strange_term" := by
  decide

/-- C2 (amended): a consequence term absent from the severity table is
assigned rank 0 — the MOST severe rank class (lower = more severe) —
so an unknown term always ranks at least as severe as any other term
and wins the selection over every term of positive rank. -/
theorem c2_unknown_term_rank (sev : List (String × String)) (t : String)
    (h : sev.lookup t = none) :
    severityOf sev t = 0 ∧ ∀ u, severityOf sev t ≤ severityOf sev u := by
  have h0 : severityOf sev t = 0 := by
    unfold severityOf lookupSeverity
    rw [h]
    rfl
  exact ⟨h0, fun u => by rw [h0]; exact Nat.zero_le _⟩

/-- C2 witness: the absent term "zzz" gets rank 0 under a concrete
table and ranks at least as severe as the present term. -/
theorem c2_unknown_term_rank_witness :
    severityOf [("missense_variant", "5")] "zzz" = 0 ∧
    severityOf [("missense_variant", "5")] "zzz"
      ≤ severityOf [("missense_variant", "5")] "missense_variant" :=
  ⟨(c2_unknown_term_rank [("missense_variant", "5")] "zzz" (by decide)).1,
   (c2_unknown_term_rank [("missense_variant", "5")] "zzz" (by decide)).2
     "missense_variant"⟩

/-- C3: every candidate built by the per-record normalizer has
end = start for variety "SNV", end = start + 1 for variety
"insertion" (regardless of reference length), and
end = start + reference-byte-length - 1 otherwise. -/
theorem c3_end_coordinate (sev : List (String × String)) (r : Record)
    (c : Line) (hc : c ∈ processRecord sev r) :
    (c.variety = "SNV" → c.end_ = c.start) ∧
    (c.variety = "insertion" → c.end_ = c.start + 1) ∧
    (c.variety ≠ "SNV" → c.variety ≠ "insertion" →
      c.end_ = c.start + r.reference.utf8ByteSize - 1) := by
  obtain ⟨i, alt, hi, halt, rfl⟩ := mem_processRecord sev r c hc
  refine ⟨?_, ?_, ?_⟩
  · intro h
    simp only at h ⊢
    simp [computeEnd, h]
  · intro h
    simp only at h ⊢
    simp [computeEnd, h]
  · intro h1 h2
    simp only at h1 h2 ⊢
    simp [computeEnd, h1, h2]

/-- C3 witness: the concrete SNV candidate produced by a concrete
record has end = start. -/
theorem c3_end_coordinate_witness :
    ({ chromosome := "1", start := 100, end_ := 100, id := "rs7",
       variety := "SNV", reference := "A", alts := ["G"], group := 1,
       severity := "missense_variant", severity_rank := 2 } : Line).end_
      = ({ chromosome := "1", start := 100, end_ := 100, id := "rs7",
           variety := "SNV", reference := "A", alts := ["G"], group := 1,
           severity := "missense_variant",
           severity_rank := 2 } : Line).start :=
  (c3_end_coordinate [("missense_variant", "2")]
    { chromosome := "1", position := 100, reference := "A",
      alternative := ["G"], id := ["rs7"],
      csqInfo := some
        ["G|missense_variant|x|x|x|x|x|x|x|x|x|x|x|x|x|x|x|x|x|x|x|SNV"] }
    { chromosome := "1", start := 100, end_ := 100, id := "rs7",
      variety := "SNV", reference := "A", alts := ["G"], group := 1,
      severity := "missense_variant", severity_rank := 2 }
    (by decide)).1 (by decide)

/-- C7: a record whose reference allele is longer than 31 bytes is
skipped (no candidates), and a record with a reference of exactly 31
bytes passes the length rule: provided no other skip rule fires it
produces candidates. -/
theorem c7_reference_length_boundary :
    (∀ (sev : List (String × String)) (r : Record),
      31 < r.reference.utf8ByteSize → processRecord sev r = []) ∧
    (∀ (sev : List (String × String)) (r : Record),
      r.reference.utf8ByteSize = 31 → hasMultiId r = false →
      (csqTerms r).isEmpty = false → r.id ≠ [] → r.alternative ≠ [] →
      processRecord sev r ≠ []) := by
  constructor
  · intro sev r h
    simp only [processRecord]
    rw [if_pos h]
  · intro sev r h31 hm hcsq hid halt
    exact processRecord_ne_nil sev r (by rw [h31]; exact lt_irrefl 31) hm
      hcsq hid halt

/-- C7 witness: a concrete 32-byte reference is skipped while a
31-byte one is processed. -/
theorem c7_reference_length_boundary_witness :
    processRecord []
      { chromosome := "1", position := 5,
        reference := String.mk (List.replicate 32 'A'),
        alternative := ["G"], id := ["rs1"],
        csqInfo := some ["G|intron_variant"] } = [] ∧
    processRecord []
      { chromosome := "1", position := 5,
        reference := String.mk (List.replicate 31 'A'),
        alternative := ["G"], id := ["rs1"],
        csqInfo := some ["G|intron_variant"] } ≠ [] :=
  ⟨c7_reference_length_boundary.1 [] _ (by decide),
   c7_reference_length_boundary.2 [] _ (by decide) (by decide) (by decide)
     (by decide) (by decide)⟩

/-- C10: extracting an annotation field at an index past the number of
'|'-separated fields yields the empty string (totality with default),
and a record whose annotation strings all have a single '|'-field
still produces candidates, whose consequence label and variety are the
empty string and whose severity rank is the table's default for the
empty-string term. -/
theorem c10_missing_csq_fields (sev : List (String × String)) (r : Record)
    (css : List String) (hinfo : r.csqInfo = some css) (hne : css ≠ [])
    (hshort : ∀ s ∈ css, (splitOnStr '|' s).length = 1)
    (href : ¬ 31 < r.reference.utf8ByteSize) (hm : hasMultiId r = false)
    (hps : (parseU8 (lookupSeverity sev "")).isSome)
    (hid : r.id ≠ []) (halt : r.alternative ≠ []) :
    (∀ (s : String) (i : Nat), (splitOnStr '|' s).length ≤ i →
      (splitOnStr '|' s).getD i "" = "") ∧
    processRecord sev r ≠ [] ∧
    ∀ c ∈ processRecord sev r,
      c.severity = "" ∧ c.variety = "" ∧
      c.severity_rank = severityOf sev "" := by
  have hterms : ∀ s ∈ css, csqField1 s = "" := by
    intro s hs
    unfold csqField1
    exact List.getD_eq_default _ _ (by rw [hshort s hs])
  have hcls : ∀ s ∈ css, csqField21 s = "" := by
    intro s hs
    unfold csqField21
    exact List.getD_eq_default _ _ (by rw [hshort s hs]; exact (by norm_num))
  have hct : csqTerms r = css.map csqField1 := by
    unfold csqTerms
    rw [hinfo]
    rfl
  have hcc : csqClasses r = css.map csqField21 := by
    unfold csqClasses
    rw [hinfo]
    rfl
  have hpairs : ∀ p ∈ (csqTerms r).zip (csqClasses r), p = ("", "") := by
    intro p hp
    obtain ⟨h1, h2⟩ := List.of_mem_zip hp
    rw [hct] at h1
    rw [hcc] at h2
    obtain ⟨s1, hs1, he1⟩ := List.mem_map.mp h1
    obtain ⟨s2, hs2, he2⟩ := List.mem_map.mp h2
    have : p.1 = "" := he1 ▸ hterms s1 hs1
    have h2' : p.2 = "" := he2 ▸ hcls s2 hs2
    exact Prod.ext this h2'
  have hzne : (csqTerms r).zip (csqClasses r) ≠ [] := by
    rw [hct, hcc]
    obtain ⟨s, ss, rfl⟩ := List.exists_cons_of_ne_nil hne
    simp
  have hle : severityOf sev "" ≤ 255 := severityOf_le sev "" hps
  have hclassify := classifyCsq_all_empty sev _ hpairs hzne hle
  have hcsqne : (csqTerms r).isEmpty = false := by
    rw [hct]
    obtain ⟨s, ss, rfl⟩ := List.exists_cons_of_ne_nil hne
    simp
  refine ⟨fun s i h => List.getD_eq_default _ _ h,
    processRecord_ne_nil sev r href hm hcsqne hid halt, ?_⟩
  intro c hc
  obtain ⟨i, alt, hi, halt2, rfl⟩ := mem_processRecord sev r c hc
  rw [hclassify]
  exact ⟨rfl, rfl, rfl⟩

/-- C10 witness: a concrete record whose single annotation string has
no '|' at all yields a candidate with empty consequence and variety
and the default rank 0. -/
theorem c10_missing_csq_fields_witness :
    (splitOnStr '|' "no_pipes_here").getD 1 "" = "" ∧
    processRecord [("missense_variant", "5")]
      { chromosome := "1", position := 9, reference := "A",
        alternative := ["G"], id := ["rs3"],
        csqInfo := some ["no_pipes_here"] } ≠ [] ∧
    ({ chromosome := "1", start := 9, end_ := 9, id := "rs3",
       variety := "", reference := "A", alts := ["G"], group := 0,
       severity := "", severity_rank := 0 } : Line).severity = "" ∧
    ({ chromosome := "1", start := 9, end_ := 9, id := "rs3",
       variety := "", reference := "A", alts := ["G"], group := 0,
       severity := "", severity_rank := 0 } : Line).severity_rank
      = severityOf [("missense_variant", "5")] "" := by
  have h := c10_missing_csq_fields [("missense_variant", "5")]
    { chromosome := "1", position := 9, reference := "A",
      alternative := ["G"], id := ["rs3"],
      csqInfo := some ["no_pipes_here"] }
    ["no_pipes_here"] rfl (by decide) (by decide) (by decide) (by decide)
    (by decide) (by decide) (by decide)
  have hc := h.2.2
    { chromosome := "1", start := 9, end_ := 9, id := "rs3",
      variety := "", reference := "A", alts := ["G"], group := 0,
      severity := "", severity_rank := 0 } (by decide)
  exact ⟨h.1 "no_pipes_here" 1 (by decide), h.2.1, hc.1, hc.2.2⟩

/-! ## Split / join round-trip lemmas -/

theorem splitChar_ne_nil (c : Char) (l : List Char) : splitChar c l ≠ [] := by
  cases l with
  | nil => simp [splitChar]
  | cons d ds =>
    unfold splitChar
    split
    · simp
    · split <;> simp

theorem joinChar_splitChar (c : Char) (l : List Char) :
    joinChar c (splitChar c l) = l := by
  induction l with
  | nil => rfl
  | cons d ds ih =>
    by_cases h : d = c
    · subst h
      rw [show splitChar d (d :: ds) = [] :: splitChar d ds from by
        rw [splitChar]; rw [if_pos rfl]]
      obtain ⟨e, es, hr⟩ : ∃ e es, splitChar d ds = e :: es := by
        cases hsp : splitChar d ds with
        | nil => exact absurd hsp (splitChar_ne_nil d ds)
        | cons e es => exact ⟨e, es, rfl⟩
      rw [hr]
      rw [hr] at ih
      show ([] : List Char) ++ d :: joinChar d (e :: es) = d :: ds
      rw [List.nil_append, ih]
    · obtain ⟨e, es, hr⟩ : ∃ e es, splitChar c ds = e :: es := by
        cases hsp : splitChar c ds with
        | nil => exact absurd hsp (splitChar_ne_nil c ds)
        | cons e es => exact ⟨e, es, rfl⟩
      rw [show splitChar c (d :: ds) = (d :: e) :: es from by
        rw [splitChar]; rw [if_neg h, hr]]
      rw [hr] at ih
      cases es with
      | nil =>
        show d :: e = d :: ds
        rw [show joinChar c [e] = e from rfl] at ih
        rw [ih]
      | cons f fs =>
        show (d :: e) ++ c :: joinChar c (f :: fs) = d :: ds
        rw [List.cons_append]
        have hjc : joinChar c (e :: f :: fs) = e ++ c :: joinChar c (f :: fs) := rfl
        rw [← hjc, ih]

theorem splitChar_of_not_mem (c : Char) (l : List Char) (h : c ∉ l) :
    splitChar c l = [l] := by
  induction l with
  | nil => rfl
  | cons d ds ih =>
    have hd : ¬ d = c := fun hdc => h (hdc ▸ List.mem_cons_self _ _)
    have hds : c ∉ ds := fun hm => h (List.mem_cons_of_mem _ hm)
    rw [splitChar]
    rw [if_neg hd, ih hds]

theorem splitChar_append_sep (c : Char) (t : List Char) :
    ∀ x : List Char, c ∉ x → splitChar c (x ++ c :: t) = x :: splitChar c t := by
  intro x
  induction x with
  | nil =>
    intro _
    show splitChar c (c :: t) = [] :: splitChar c t
    rw [splitChar]
    rw [if_pos rfl]
  | cons a as ih =>
    intro h
    have ha : ¬ a = c := fun hac => h (hac ▸ List.mem_cons_self _ _)
    have has : c ∉ as := fun hm => h (List.mem_cons_of_mem _ hm)
    show splitChar c (a :: (as ++ c :: t)) = (a :: as) :: splitChar c t
    rw [splitChar]
    rw [if_neg ha, ih has]

theorem splitChar_joinChar (c : Char) :
    ∀ ps : List (List Char), ps ≠ [] → (∀ p ∈ ps, c ∉ p) →
      splitChar c (joinChar c ps) = ps := by
  intro ps
  induction ps with
  | nil => intro h _; exact absurd rfl h
  | cons x xs ih =>
    intro _ hfree
    cases xs with
    | nil =>
      show splitChar c x = [x]
      exact splitChar_of_not_mem c x (hfree x (List.mem_cons_self _ _))
    | cons y ys =>
      show splitChar c (x ++ c :: joinChar c (y :: ys)) = x :: (y :: ys)
      rw [splitChar_append_sep c _ x (hfree x (List.mem_cons_self _ _))]
      rw [ih (by simp) (fun p hp => hfree p (List.mem_cons_of_mem _ hp))]

theorem mem_joinChar (c : Char) :
    ∀ (ps : List (List Char)) (a : Char), a ∈ joinChar c ps →
      a = c ∨ ∃ p ∈ ps, a ∈ p := by
  intro ps
  induction ps with
  | nil => intro a h; exact absurd h (List.not_mem_nil a)
  | cons x xs ih =>
    intro a h
    cases xs with
    | nil => exact Or.inr ⟨x, List.mem_cons_self _ _, h⟩
    | cons y ys =>
      rcases List.mem_append.mp h with h' | h'
      · exact Or.inr ⟨x, List.mem_cons_self _ _, h'⟩
      · rcases List.mem_cons.mp h' with rfl | h''
        · exact Or.inl rfl
        · rcases ih a h'' with h3 | ⟨p, hp, hap⟩
          · exact Or.inl h3
          · exact Or.inr ⟨p, List.mem_cons_of_mem _ hp, hap⟩

theorem joinStr_splitOnStr (c : Char) (s : String) :
    joinStr c (splitOnStr c s) = s := by
  unfold joinStr splitOnStr
  rw [List.map_map]
  have hmap : (String.data ∘ String.mk) = id := funext fun l => rfl
  rw [hmap, List.map_id, joinChar_splitChar]

theorem splitOnStr_joinStr (c : Char) (ps : List String) (hne : ps ≠ [])
    (hfree : ∀ p ∈ ps, c ∉ p.data) :
    splitOnStr c (joinStr c ps) = ps := by
  unfold splitOnStr joinStr
  rw [show (String.mk (joinChar c (ps.map String.data))).data
      = joinChar c (ps.map String.data) from rfl]
  rw [splitChar_joinChar c (ps.map String.data)
    (by simpa using hne)
    (by
      intro p hp
      obtain ⟨q, hq, rfl⟩ := List.mem_map.mp hp
      exact hfree q hq)]
  rw [List.map_map]
  have hmap : (String.mk ∘ String.data) = id := funext fun q => by cases q; rfl
  rw [hmap, List.map_id]

/-! ## Decimal digits contain no space -/

theorem digitChar_ne_space (n : Nat) : Nat.digitChar n ≠ ' ' := by
  by_cases h : n < 16
  · interval_cases n <;> decide
  · have h0 : ¬ n = 0 := by omega
    have h1 : ¬ n = 1 := by omega
    have h2 : ¬ n = 2 := by omega
    have h3 : ¬ n = 3 := by omega
    have h4 : ¬ n = 4 := by omega
    have h5 : ¬ n = 5 := by omega
    have h6 : ¬ n = 6 := by omega
    have h7 : ¬ n = 7 := by omega
    have h8 : ¬ n = 8 := by omega
    have h9 : ¬ n = 9 := by omega
    have h10 : ¬ n = 10 := by omega
    have h11 : ¬ n = 11 := by omega
    have h12 : ¬ n = 12 := by omega
    have h13 : ¬ n = 13 := by omega
    have h14 : ¬ n = 14 := by omega
    have h15 : ¬ n = 15 := by omega
    have hstar : Nat.digitChar n = '*' := by
      rw [Nat.digitChar.eq_def]
      rw [if_neg h0, if_neg h1, if_neg h2, if_neg h3, if_neg h4, if_neg h5,
        if_neg h6, if_neg h7, if_neg h8, if_neg h9, if_neg h10, if_neg h11,
        if_neg h12, if_neg h13, if_neg h14, if_neg h15]
    rw [hstar]
    decide

theorem mem_toDigitsCore (b : Nat) :
    ∀ (f n : Nat) (ds : List Char) (ch : Char),
      ch ∈ Nat.toDigitsCore b f n ds →
      (∃ m, ch = Nat.digitChar m) ∨ ch ∈ ds := by
  intro f
  induction f with
  | zero =>
    intro n ds ch h
    right
    simpa [Nat.toDigitsCore] using h
  | succ f ih =>
    intro n ds ch h
    unfold Nat.toDigitsCore at h
    dsimp only at h
    split at h
    · rcases List.mem_cons.mp h with rfl | h'
      · exact Or.inl ⟨n % b, rfl⟩
      · exact Or.inr h'
    · rcases ih (n / b) (Nat.digitChar (n % b) :: ds) ch h with h' | h'
      · exact Or.inl h'
      · rcases List.mem_cons.mp h' with rfl | h''
        · exact Or.inl ⟨n % b, rfl⟩
        · exact Or.inr h''

theorem repr_no_space (n : Nat) : spaceFree (Nat.repr n) := by
  intro h
  have hdata : (Nat.repr n).data = Nat.toDigitsCore 10 (n + 1) n [] := rfl
  rw [hdata] at h
  rcases mem_toDigitsCore 10 (n + 1) n [] ' ' h with ⟨m, hm⟩ | h'
  · exact digitChar_ne_space m hm.symm
  · exact absurd h' (List.not_mem_nil _)

theorem spaceFree_joinAlts (ps : List String) (h : ∀ p ∈ ps, spaceFree p) :
    spaceFree (joinStr '/' ps) := by
  intro hmem
  rcases mem_joinChar '/' (ps.map String.data) ' ' hmem with h' | ⟨p, hp, hin⟩
  · exact absurd h' (by decide)
  · obtain ⟨q, hq, rfl⟩ := List.mem_map.mp hp
    exact h q hq hin

/-- C6 counterexample: for an interval whose chromosome contains a
space, emitting, re-parsing (9 space-separated fields, alts split on
"/") and re-emitting does NOT reproduce the original line, refuting
the claim for arbitrary non-empty intervals. -/
theorem c6_counterexample :
    ({ chromosome := "a b", start := 1, end_ := 1, id := "x",
       variety := "SNV", reference := "A", alts := ["G"], group := 1,
       severity := "sev", severity_rank := 5 } : Line).alts ≠ [] ∧
    (parseLine (Line.emit
      { chromosome := "a b", start := 1, end_ := 1, id := "x",
        variety := "SNV", reference := "A", alts := ["G"], group := 1,
        severity := "sev", severity_rank := 5 })).emit
      ≠ Line.emit
      { chromosome := "a b", start := 1, end_ := 1, id := "x",
        variety := "SNV", reference := "A", alts := ["G"], group := 1,
        severity := "sev", severity_rank := 5 } := by
  decide

/-- C6 (amended): for every non-empty interval none of whose textual
fields (chromosome, identifier, variety, reference, consequence label,
and each alternate allele) contains a space, emitting, re-parsing and
re-emitting reproduces the emitted line character for character. -/
theorem c6_emit_parse_emit (l : Line) (hne : l.alts ≠ [])
    (h1 : spaceFree l.chromosome) (h2 : spaceFree l.id)
    (h3 : spaceFree l.variety) (h4 : spaceFree l.reference)
    (h5 : spaceFree l.severity) (h6 : ∀ a ∈ l.alts, spaceFree a) :
    (parseLine (Line.emit l)).emit = Line.emit l := by
  have hsplit : splitOnStr ' ' (Line.emit l) = l.emitFields := by
    apply splitOnStr_joinStr
    · simp [Line.emitFields]
    · intro p hp
      simp only [Line.emitFields, List.mem_cons, List.not_mem_nil,
        or_false] at hp
      rcases hp with rfl | rfl | rfl | rfl | rfl | rfl | rfl | rfl | rfl
      · exact h1
      · exact repr_no_space _
      · exact repr_no_space _
      · exact h2
      · exact h3
      · exact h4
      · exact spaceFree_joinAlts _ h6
      · exact repr_no_space _
      · exact h5
  unfold ParsedLine.emit parseLine
  rw [hsplit]
  dsimp only
  have e0 : l.emitFields.getD 0 "" = l.chromosome := rfl
  have e1 : l.emitFields.getD 1 "" = Nat.repr l.start := rfl
  have e2 : l.emitFields.getD 2 "" = Nat.repr l.end_ := rfl
  have e3 : l.emitFields.getD 3 "" = l.id := rfl
  have e4 : l.emitFields.getD 4 "" = l.variety := rfl
  have e5 : l.emitFields.getD 5 "" = l.reference := rfl
  have e6 : l.emitFields.getD 6 "" = joinStr '/' l.alts := rfl
  have e7 : l.emitFields.getD 7 "" = Nat.repr l.group := rfl
  have e8 : l.emitFields.getD 8 "" = l.severity := rfl
  rw [e0, e1, e2, e3, e4, e5, e6, e7, e8, joinStr_splitOnStr]
  rfl

/-- C6 witness: a concrete space-free interval round-trips. -/
theorem c6_emit_parse_emit_witness :
    (parseLine (Line.emit
      { chromosome := "1", start := 100, end_ := 102, id := "rs1",
        variety := "deletion", reference := "AGG", alts := ["A", "AG"],
        group := 3, severity := "intron_variant",
        severity_rank := 7 })).emit
      = Line.emit
      { chromosome := "1", start := 100, end_ := 102, id := "rs1",
        variety := "deletion", reference := "AGG", alts := ["A", "AG"],
        group := 3, severity := "intron_variant", severity_rank := 7 } :=
  c6_emit_parse_emit _ (by decide) (by decide) (by decide) (by decide)
    (by decide) (by decide) (by decide)

/-! ## The cross-file dedup utility -/

theorem firstOccurrences_cons (l : String) (rest : List String) :
    firstOccurrences (l :: rest)
      = l :: firstOccurrences (rest.filter (fun x => bedKey x ≠ bedKey l)) := by
  rw [firstOccurrences.eq_def]

theorem nine_fields_rejoin (l : String)
    (h : (splitOnStr ' ' l).length = 9) :
    joinStr ' ' [(splitOnStr ' ' l).getD 0 "", (splitOnStr ' ' l).getD 1 "",
      (splitOnStr ' ' l).getD 2 "", (splitOnStr ' ' l).getD 3 "",
      (splitOnStr ' ' l).getD 4 "", (splitOnStr ' ' l).getD 5 "",
      (splitOnStr ' ' l).getD 6 "", (splitOnStr ' ' l).getD 7 "",
      (splitOnStr ' ' l).getD 8 ""] = l := by
  have hrt := joinStr_splitOnStr ' ' l
  obtain ⟨a0, a1, a2, a3, a4, a5, a6, a7, a8, hlist⟩ :
      ∃ a0 a1 a2 a3 a4 a5 a6 a7 a8,
        splitOnStr ' ' l = [a0, a1, a2, a3, a4, a5, a6, a7, a8] := by
    rcases hps : splitOnStr ' ' l with _ | ⟨a0, ps⟩
    · rw [hps] at h; simp at h
    · rw [hps] at h
      rcases ps with _ | ⟨a1, ps⟩
      · simp at h
      rcases ps with _ | ⟨a2, ps⟩
      · simp at h
      rcases ps with _ | ⟨a3, ps⟩
      · simp at h
      rcases ps with _ | ⟨a4, ps⟩
      · simp at h
      rcases ps with _ | ⟨a5, ps⟩
      · simp at h
      rcases ps with _ | ⟨a6, ps⟩
      · simp at h
      rcases ps with _ | ⟨a7, ps⟩
      · simp at h
      rcases ps with _ | ⟨a8, ps⟩
      · simp at h
      simp only [List.length_cons] at h
      have hnil : ps = [] := List.eq_nil_of_length_eq_zero (by omega)
      subst hnil
      exact ⟨a0, a1, a2, a3, a4, a5, a6, a7, a8, rfl⟩
  rw [hlist] at hrt ⊢
  exact hrt

theorem mergeBedStep_seen (seen out : List String) (l : String)
    (hk : bedKey l ∈ seen) : mergeBedStep (seen, out) l = (seen, out) := by
  unfold mergeBedStep
  dsimp only
  rw [if_pos hk]

theorem mergeBedStep_new (seen out : List String) (l : String)
    (hk : bedKey l ∉ seen) (h9 : (splitOnStr ' ' l).length = 9) :
    mergeBedStep (seen, out) l = (seen ++ [bedKey l], out ++ [l]) := by
  unfold mergeBedStep
  dsimp only
  rw [if_neg hk, nine_fields_rejoin l h9]

theorem mergeBed_foldl (lines : List String) :
    ∀ seen out, (∀ l ∈ lines, (splitOnStr ' ' l).length = 9) →
      (lines.foldl mergeBedStep (seen, out)).2
        = out ++ firstOccurrences (lines.filter (fun x => bedKey x ∉ seen)) := by
  induction lines with
  | nil =>
    intro seen out _
    simp [firstOccurrences]
  | cons l ls ih =>
    intro seen out hf
    rw [List.foldl_cons]
    by_cases hk : bedKey l ∈ seen
    · rw [mergeBedStep_seen seen out l hk]
      rw [ih seen out (fun x hx => hf x (List.mem_cons_of_mem _ hx))]
      have hfil : (l :: ls).filter (fun x => bedKey x ∉ seen)
          = ls.filter (fun x => bedKey x ∉ seen) := by
        rw [List.filter_cons]
        simp [hk]
      rw [hfil]
    · rw [mergeBedStep_new seen out l hk (hf l (List.mem_cons_self _ _))]
      rw [ih (seen ++ [bedKey l]) (out ++ [l])
        (fun x hx => hf x (List.mem_cons_of_mem _ hx))]
      have hfil : (l :: ls).filter (fun x => bedKey x ∉ seen)
          = l :: ls.filter (fun x => bedKey x ∉ seen) := by
        rw [List.filter_cons]
        simp [hk]
      rw [hfil, firstOccurrences_cons]
      have hff : ls.filter (fun x => bedKey x ∉ seen ++ [bedKey l])
          = (ls.filter (fun x => bedKey x ∉ seen)).filter
              (fun x => bedKey x ≠ bedKey l) := by
        rw [List.filter_filter]
        apply List.filter_congr
        intro x _
        by_cases h1 : bedKey x = bedKey l
        · simp [h1]
        · by_cases h2 : bedKey x ∈ seen <;> simp [h1, h2]
      rw [hff]
      simp

/-- C8: over any sequence of input files of 9-field lines, the dedup
utility outputs, for each distinct 4th field (the identifier), exactly
the first line carrying it in file-then-line order, preserved
verbatim; all later lines with an already-seen identifier are
dropped. -/
theorem c8_mergeBed_dedup (files : List (List String))
    (h : ∀ l ∈ files.flatten, (splitOnStr ' ' l).length = 9) :
    mergeBed files = firstOccurrences files.flatten := by
  have h1 : mergeBed files = (files.flatten.foldl mergeBedStep ([], [])).2 := by
    unfold mergeBed
    rw [List.foldl_flatten]
    rfl
  rw [h1, mergeBed_foldl files.flatten [] [] h, List.nil_append,
    List.filter_eq_self.mpr (fun a _ => by simp)]

/-- C8 witness: with identifier "rs5" appearing in two files, only the
first file's line survives, verbatim and in order. -/
theorem c8_mergeBed_dedup_witness :
    mergeBed [["1 5 6 rs5 SNV A G 1 sev", "2 7 8 rs5 SNV T C 1 sev"],
              ["3 9 9 rs6 SNV G A 1 sev"]]
      = firstOccurrences ["1 5 6 rs5 SNV A G 1 sev",
          "2 7 8 rs5 SNV T C 1 sev", "3 9 9 rs6 SNV G A 1 sev"] :=
  c8_mergeBed_dedup
    [["1 5 6 rs5 SNV A G 1 sev", "2 7 8 rs5 SNV T C 1 sev"],
     ["3 9 9 rs6 SNV G A 1 sev"]] (by decide)

/-! ## The accumulator over a compatible candidate group -/

theorem run_compatible_fold (cs : List Line) :
    ∀ cur : Line,
      (∀ d ∈ cs, d.chromosome = cur.chromosome ∧ d.start = cur.start ∧
        d.variety = cur.variety ∧ d.reference = cur.reference) →
      Line.run cur cs = ([], cs.foldl Line.mergeCompatible cur) := by
  induction cs with
  | nil => intro cur _; rfl
  | cons d ds ih =>
    intro cur hsh
    obtain ⟨hch, hst, hv, hrf⟩ := hsh d (List.mem_cons_self _ _)
    have hcomp : cur.compatible d = true :=
      (compatible_iff cur d).mpr ⟨hch.symm, hst.symm, hv.symm, hrf.symm⟩
    have hm : Line.merge cur (some d) = (none, cur.mergeCompatible d) := by
      simp [Line.merge, hcomp]
    have hfr := mergeCompatible_frame cur d
    have hva := mergeCompatible_variety cur d hv
    have hrec := ih (cur.mergeCompatible d) (fun e he => by
      obtain ⟨h1, h2, h3, h4⟩ := hsh e (List.mem_cons_of_mem _ he)
      exact ⟨h1.trans hfr.1.symm, h2.trans hfr.2.1.symm,
        h3.trans hva.symm, h4.trans hfr.2.2.1.symm⟩)
    rw [Line.run]
    rw [hm]
    dsimp only
    rw [hrec]
    rfl

theorem foldl_mergeCompatible_frame (cs : List Line) :
    ∀ cur : Line, (∀ d ∈ cs, d.variety = cur.variety) →
      (cs.foldl Line.mergeCompatible cur).chromosome = cur.chromosome ∧
      (cs.foldl Line.mergeCompatible cur).start = cur.start ∧
      (cs.foldl Line.mergeCompatible cur).variety = cur.variety ∧
      (cs.foldl Line.mergeCompatible cur).reference = cur.reference ∧
      (cs.foldl Line.mergeCompatible cur).id = cur.id := by
  induction cs with
  | nil => intro cur _; exact ⟨rfl, rfl, rfl, rfl, rfl⟩
  | cons d ds ih =>
    intro cur hv
    have hdv : d.variety = cur.variety := hv d (List.mem_cons_self _ _)
    have hfr := mergeCompatible_frame cur d
    have hva := mergeCompatible_variety cur d hdv
    have hrec := ih (cur.mergeCompatible d) (fun e he => by
      rw [hva]; exact hv e (List.mem_cons_of_mem _ he))
    rw [List.foldl_cons]
    exact ⟨hrec.1.trans hfr.1, hrec.2.1.trans hfr.2.1, hrec.2.2.1.trans hva,
      hrec.2.2.2.1.trans hfr.2.2.1, hrec.2.2.2.2.trans hfr.2.2.2⟩

theorem foldl_mergeCompatible_alts (cs : List Line) :
    ∀ (cur : Line) (a : String),
      a ∈ (cs.foldl Line.mergeCompatible cur).alts ↔
        a ∈ cur.alts ∨ ∃ d ∈ cs, a ∈ d.alts := by
  induction cs with
  | nil => intro cur a; simp
  | cons d ds ih =>
    intro cur a
    rw [List.foldl_cons, ih (cur.mergeCompatible d) a, mergeCompatible_alts,
      mem_extendAlts]
    constructor
    · rintro ((h | h) | ⟨e, he, h⟩)
      · exact Or.inl h
      · exact Or.inr ⟨d, List.mem_cons_self _ _, h⟩
      · exact Or.inr ⟨e, List.mem_cons_of_mem _ he, h⟩
    · rintro (h | ⟨e, he, h⟩)
      · exact Or.inl (Or.inl h)
      · rcases List.mem_cons.mp he with rfl | he'
        · exact Or.inl (Or.inr h)
        · exact Or.inr ⟨e, he', h⟩

theorem mostSevere_foldl_congr (ds : List Line) :
    ∀ b b' : Line, b.severity_rank = b'.severity_rank →
      b.severity = b'.severity → b.group = b'.group →
      (mostSevereOf b ds).severity_rank = (mostSevereOf b' ds).severity_rank ∧
      (mostSevereOf b ds).severity = (mostSevereOf b' ds).severity ∧
      (mostSevereOf b ds).group = (mostSevereOf b' ds).group := by
  induction ds with
  | nil => intro b b' h1 h2 h3; exact ⟨h1, h2, h3⟩
  | cons e es ih =>
    intro b b' h1 h2 h3
    unfold mostSevereOf
    rw [List.foldl_cons, List.foldl_cons]
    by_cases he : e.severity_rank < b.severity_rank
    · rw [if_pos he, if_pos (h1 ▸ he)]
      exact ⟨rfl, rfl, rfl⟩
    · rw [if_neg he, if_neg (h1 ▸ he)]
      exact ih b b' h1 h2 h3

theorem foldl_mergeCompatible_rank (cs : List Line) :
    ∀ cur : Line,
      (cs.foldl Line.mergeCompatible cur).severity_rank
        = (mostSevereOf cur cs).severity_rank ∧
      (cs.foldl Line.mergeCompatible cur).severity
        = (mostSevereOf cur cs).severity ∧
      (cs.foldl Line.mergeCompatible cur).group
        = (mostSevereOf cur cs).group := by
  induction cs with
  | nil => intro cur; exact ⟨rfl, rfl, rfl⟩
  | cons d ds ih =>
    intro cur
    have hmc := mergeCompatible_rank cur d
    have hcong := mostSevere_foldl_congr ds (cur.mergeCompatible d)
      (if d.severity_rank < cur.severity_rank then d else cur)
      (hmc.1.trans (apply_ite Line.severity_rank _ d cur).symm)
      (hmc.2.1.trans (apply_ite Line.severity _ d cur).symm)
      (hmc.2.2.trans (apply_ite Line.group _ d cur).symm)
    rw [List.foldl_cons]
    exact ⟨(ih _).1.trans hcong.1, (ih _).2.1.trans hcong.2.1,
      (ih _).2.2.trans hcong.2.2⟩

/-- C1 counterexample: a single candidate that trivially satisfies the
shared-fields hypothesis and carries one allele, but whose identifier
is the empty string (the sentinel's identifier) with a non-empty
variety, is judged redundant against the initial sentinel and
discarded, so the fold-then-finish run emits NO interval instead of
exactly one. -/
theorem c1_counterexample :
    ({ chromosome := "1", start := 100, end_ := 100, id := "",
       variety := "SNV", reference := "A", alts := ["G"], group := 1,
       severity := "missense_variant",
       severity_rank := 5 } : Line).alts.length = 1 ∧
    Line.runFinish Line.sentinel
      [{ chromosome := "1", start := 100, end_ := 100, id := "",
         variety := "SNV", reference := "A", alts := ["G"], group := 1,
         severity := "missense_variant", severity_rank := 5 }] = [] := by
  decide

/-- C1 (amended): for every non-empty candidate sequence whose
candidates all share the first candidate's chromosome, start, variety
and reference and carry one allele each (as normalizer candidates do),
and whose FIRST candidate is neither compatible with nor redundant
against the initial sentinel, folding all candidates from the sentinel
and then finishing emits exactly one interval; its alternate-allele
set is the union of all the candidates' alleles, and its consequence
label, group and severity rank are those of the earliest candidate of
minimum severity rank. -/
theorem c1_merged_group (c : Line) (rest : List Line)
    (hc : ¬ Line.sentinel.compatible c = true)
    (hr : ¬ Line.sentinel.redundant c = true)
    (halts : ∀ d ∈ c :: rest, d.alts.length = 1)
    (hsh : ∀ d ∈ rest, d.chromosome = c.chromosome ∧ d.start = c.start ∧
      d.variety = c.variety ∧ d.reference = c.reference) :
    ∃ out, Line.runFinish Line.sentinel (c :: rest) = [out] ∧
      (∀ a, a ∈ out.alts ↔ ∃ d ∈ c :: rest, a ∈ d.alts) ∧
      out.severity = (mostSevereOf c rest).severity ∧
      out.group = (mostSevereOf c rest).group ∧
      out.severity_rank = (mostSevereOf c rest).severity_rank := by
  have hm1 : Line.merge Line.sentinel (some c) = (none, c) := by
    unfold Line.merge
    dsimp only
    rw [if_neg hc, if_neg hr]
    rfl
  have hrun : Line.run c rest = ([], rest.foldl Line.mergeCompatible c) :=
    run_compatible_fold rest c hsh
  set F := rest.foldl Line.mergeCompatible c with hF
  have hmem : ∀ a, a ∈ F.alts ↔ a ∈ c.alts ∨ ∃ d ∈ rest, a ∈ d.alts :=
    fun a => foldl_mergeCompatible_alts rest c a
  have hc1 : c.alts.length = 1 := halts c (List.mem_cons_self _ _)
  obtain ⟨a0, ha0⟩ : ∃ a0, c.alts = [a0] := List.length_eq_one.mp hc1
  have ha0F : a0 ∈ F.alts :=
    (hmem a0).mpr (Or.inl (ha0 ▸ List.mem_cons_self a0 []))
  have hFne : 0 < F.alts.length :=
    List.length_pos.mpr (List.ne_nil_of_mem ha0F)
  have hfin : Line.merge F none = (some F, F) := by
    simp [Line.merge, hFne]
  have hrunc : Line.run Line.sentinel (c :: rest) = ([], F) := by
    rw [Line.run]
    rw [hm1]
    dsimp only
    rw [hrun]
    rfl
  have hout : Line.runFinish Line.sentinel (c :: rest) = [F] := by
    unfold Line.runFinish
    rw [hrunc]
    dsimp only
    rw [hfin]
    rfl
  refine ⟨F, hout, ?_, ?_, ?_, ?_⟩
  · intro a
    rw [hmem a]
    constructor
    · rintro (h | ⟨d, hd, h⟩)
      · exact ⟨c, List.mem_cons_self _ _, h⟩
      · exact ⟨d, List.mem_cons_of_mem _ hd, h⟩
    · rintro ⟨d, hd, h⟩
      rcases List.mem_cons.mp hd with rfl | hd'
      · exact Or.inl h
      · exact Or.inr ⟨d, hd', h⟩
  · exact (foldl_mergeCompatible_rank rest c).2.1
  · exact (foldl_mergeCompatible_rank rest c).2.2
  · exact (foldl_mergeCompatible_rank rest c).1

/-- C1 witness: two concrete compatible candidates merge into exactly
one emitted interval with the union of alleles and the better-ranked
candidate's consequence data. -/
theorem c1_merged_group_witness :
    ∃ out, Line.runFinish Line.sentinel
        ({ chromosome := "1", start := 100, end_ := 100, id := "rs1",
           variety := "SNV", reference := "A", alts := ["G"], group := 1,
           severity := "missense_variant", severity_rank := 5 } ::
         [{ chromosome := "1", start := 100, end_ := 100, id := "rs2",
            variety := "SNV", reference := "A", alts := ["T"], group := 2,
            severity := "stop_gained", severity_rank := 3 }]) = [out] ∧
      (∀ a, a ∈ out.alts ↔ ∃ d ∈
        ({ chromosome := "1", start := 100, end_ := 100, id := "rs1",
           variety := "SNV", reference := "A", alts := ["G"], group := 1,
           severity := "missense_variant", severity_rank := 5 } : Line) ::
         [{ chromosome := "1", start := 100, end_ := 100, id := "rs2",
            variety := "SNV", reference := "A", alts := ["T"], group := 2,
            severity := "stop_gained", severity_rank := 3 }], a ∈ d.alts) ∧
      out.severity = (mostSevereOf
        { chromosome := "1", start := 100, end_ := 100, id := "rs1",
          variety := "SNV", reference := "A", alts := ["G"], group := 1,
          severity := "missense_variant", severity_rank := 5 }
        [{ chromosome := "1", start := 100, end_ := 100, id := "rs2",
           variety := "SNV", reference := "A", alts := ["T"], group := 2,
           severity := "stop_gained", severity_rank := 3 }]).severity ∧
      out.group = (mostSevereOf
        { chromosome := "1", start := 100, end_ := 100, id := "rs1",
          variety := "SNV", reference := "A", alts := ["G"], group := 1,
          severity := "missense_variant", severity_rank := 5 }
        [{ chromosome := "1", start := 100, end_ := 100, id := "rs2",
           variety := "SNV", reference := "A", alts := ["T"], group := 2,
           severity := "stop_gained", severity_rank := 3 }]).group ∧
      out.severity_rank = (mostSevereOf
        { chromosome := "1", start := 100, end_ := 100, id := "rs1",
          variety := "SNV", reference := "A", alts := ["G"], group := 1,
          severity := "missense_variant", severity_rank := 5 }
        [{ chromosome := "1", start := 100, end_ := 100, id := "rs2",
           variety := "SNV", reference := "A", alts := ["T"], group := 2,
           severity := "stop_gained", severity_rank := 3 }]).severity_rank :=
  c1_merged_group
    { chromosome := "1", start := 100, end_ := 100, id := "rs1",
      variety := "SNV", reference := "A", alts := ["G"], group := 1,
      severity := "missense_variant", severity_rank := 5 }
    [{ chromosome := "1", start := 100, end_ := 100, id := "rs2",
       variety := "SNV", reference := "A", alts := ["T"], group := 2,
       severity := "stop_gained", severity_rank := 3 }]
    (by decide) (by decide) (by decide) (by decide)
